import Mathlib

/-!
Shallow embedding of JGCoelho/reddit-image-downloader.

Source files embedded: `crawlddit.py` (crawl loop, page extraction, media
resolution, filename derivation, domain classification) and
`utils/downloader.py` (download loop and the sqlite `images` schema).
Python strings are Lean `String`s; Python `None` is `Option.none`; a raised
Python exception is `Except.error` carrying the exception class name.
-/

deriving instance DecidableEq for Except

/-- Python `needle in haystack` on strings, over the character list of the
haystack: `needle.isPrefixOf` some suffix.  (`crawlddit.py` uses `in` in
`known_file_format` and `known_domain`.) -/
def listContains (needle : List Char) : List Char → Bool
  | [] => needle.isEmpty
  | c :: cs => needle.isPrefixOf (c :: cs) || listContains needle cs

/-- Python `needle in haystack` for strings. -/
def strContains (needle haystack : String) : Bool :=
  listContains needle.toList haystack.toList

/-- Python `s.split('/')` over a character list: split at every `'/'`,
keeping empty segments, as `str.split` with an explicit separator does. -/
def splitSlash : List Char → List (List Char)
  | [] => [[]]
  | c :: cs =>
    match splitSlash cs with
    | [] => [[]]
    | h :: t => if c = '/' then [] :: h :: t else (c :: h) :: t

/-- `url.split('/')[-1]` — the final path segment (line 218 of crawlddit.py). -/
def lastSegment (url : String) : List Char :=
  (splitSlash url.toList).getLastD []

/-- Line 26 of crawlddit.py: `FILE_FORMATS = ['.jpg', '.jpeg', '.png', '.gif', '.webm']`. -/
def FILE_FORMATS : List String := [".jpg", ".jpeg", ".png", ".gif", ".webm"]

/-- Line 27 of crawlddit.py: `DOMAINS = ['reddit', 'imgur', 'gfycat', 'tumblr', 'blogspot']`. -/
def DOMAINS : List String := ["reddit", "imgur", "gfycat", "tumblr", "blogspot"]

/-- Lines 231-238 of crawlddit.py: return the first extension of
`FILE_FORMATS` occurring as a substring of `url`, else `None`. -/
def known_file_format (url : String) : Option String :=
  FILE_FORMATS.find? (fun extension => strContains extension url)

/-- Lines 204-211 of crawlddit.py: return the first domain of `DOMAINS`
occurring as a substring of `url`, else `None`. -/
def known_domain (url : String) : Option String :=
  DOMAINS.find? (fun domain => strContains domain url)

/-- One candidate split of `re.match` with pattern `.+` ++ `extension` applied
to `cand` (lines 220-221 of crawlddit.py): position `p` is valid when the
`.+` part can match `cand.take p` — at least one character, none of them a
newline (`.` does not match a newline) — and the literal extension follows. -/
def validPos (ext cand : List Char) (p : Nat) : Bool :=
  decide (1 ≤ p) && ext.isPrefixOf (cand.drop p) && !((cand.take p).contains '\n')

/-- The position `re.match('.+' ++ ext, cand)` settles on: the greedy `.+`
backtracks from the longest candidate, so the result is the largest valid
position `≤ n`.  Searches `n, n-1, ..., 1`. -/
def findLastPos (ext cand : List Char) : Nat → Option Nat
  | 0 => none
  | p + 1 => if validPos ext cand (p + 1) then some (p + 1) else findLastPos ext cand p

/-- `re.match(''.join(['.+\\', extension]), candidate).group(0)` — the whole
match of the anchored pattern `.+` followed by the literal extension, or
`none` when the pattern does not match `candidate`. -/
def dotPlusMatch (ext cand : List Char) : Option (List Char) :=
  match findLastPos ext cand cand.length with
  | some p => some (cand.take p ++ ext)
  | none => none

/-- Lines 214-221 of crawlddit.py (`get_image_filename`):
`candidate = url.split('/')[-1]`; `extension = known_file_format(url)`;
`pattern = ''.join(['.+\\', extension])`; `return re.match(pattern, candidate).group(0)`.
When `known_file_format(url)` is `None`, `''.join` raises `TypeError`;
when `re.match` returns `None`, `.group(0)` raises `AttributeError`.
A raised exception is modelled as `.error` with the exception class name. -/
def get_image_filename (url : String) : Except String String :=
  match known_file_format url with
  | none => .error "TypeError"
  | some extension =>
    match dotPlusMatch extension.toList (lastSegment url) with
    | none => .error "AttributeError"
    | some cs => .ok (String.mk cs)

/-! ### Model of the parsed HTML the extraction functions consume

BeautifulSoup queries are modelled structurally: each `find` the source
performs is a field holding `none` when the element is absent.  Attribute
access `tag['attr']` raises `KeyError` when the attribute is absent;
attribute or method access on a `find` that returned `None` raises
`AttributeError`; subscripting `None` raises `TypeError`. -/

/-- An `<a>` element: its `href` attribute and its `.string` text (both may
be absent; `.string` is `None` for an anchor without a unique text child). -/
structure Anchor where
  href : Option String
  string : Option String
deriving DecidableEq, Repr

/-- A `<time>` element: its `datetime` attribute, when present. -/
structure TimeTag where
  datetime : Option String
deriving DecidableEq, Repr

/-- A `<span class="domain">` element: its first `<a>` child, when present. -/
structure DomainSpan where
  a : Option Anchor
deriving DecidableEq, Repr

/-- A `<p class="title">` element: its first `<a>` child and its first
`<span class="domain">` descendant. -/
structure PTitle where
  a : Option Anchor
  domainSpan : Option DomainSpan
deriving DecidableEq, Repr

/-- A `<li class="first">` element: its first `<a>` child, when present. -/
structure LiFirst where
  a : Option Anchor
deriving DecidableEq, Repr

/-- One post container (`div` whose class matches the "thing id-t3" pattern),
holding the elements the sub-extractions query. -/
structure PostDiv where
  pTitle : Option PTitle
  timeTag : Option TimeTag
  liFirst : Option LiFirst
deriving DecidableEq, Repr

/-- A `<span class="next-button">` element: its first `<a>` child. -/
structure NextSpan where
  a : Option Anchor
deriving DecidableEq, Repr

/-- One rendered listing page: the post containers found by
`soup.find_all('div', ...)` in document order, and the next-button span. -/
structure PageSoup where
  things : List PostDiv
  nextSpan : Option NextSpan
deriving DecidableEq, Repr

/-- A `<source id="webmSource">` element of a gfycat page: its `src`
attribute, when present. -/
structure SourceTag where
  src : Option String
deriving DecidableEq, Repr

/-- Lines 258-262 of crawlddit.py: `div.find('p', attrs={'class' : 'title'})`. -/
def get_p_title_tag (div : PostDiv) : Option PTitle :=
  div.pTitle

/-- Lines 265-270 of crawlddit.py: `get_p_title_tag(div).a['href']` (written
`p.a['href']`).  `p` absent raises `AttributeError`; `p.a` absent makes the
subscript raise `TypeError`; a missing `href` attribute raises `KeyError`. -/
def get_post_url (div : PostDiv) : Except String String :=
  match get_p_title_tag div with
  | none => .error "AttributeError"
  | some p =>
    match p.a with
    | none => .error "TypeError"
    | some a =>
      match a.href with
      | none => .error "KeyError"
      | some h => .ok h

/-- Lines 273-279 of crawlddit.py: `p.find('span', attrs={'class':'domain'})`
then `span.a.string`.  `p` absent or `span` absent or `span.a` absent raises
`AttributeError`; `span.a.string` may be `None` and is returned as-is. -/
def get_post_domain (div : PostDiv) : Except String (Option String) :=
  match get_p_title_tag div with
  | none => .error "AttributeError"
  | some p =>
    match p.domainSpan with
    | none => .error "AttributeError"
    | some span =>
      match span.a with
      | none => .error "AttributeError"
      | some a => .ok a.string

/-- Lines 282-286 of crawlddit.py: `get_p_title_tag(div).a.string`. -/
def get_post_title (div : PostDiv) : Except String (Option String) :=
  match get_p_title_tag div with
  | none => .error "AttributeError"
  | some p =>
    match p.a with
    | none => .error "AttributeError"
    | some a => .ok a.string

/-- Lines 250-255 of crawlddit.py: `time = div.find('time')`; then
`time['datetime'] if time.has_attr('datetime') else None`.  When the `<time>`
element is absent, `None.has_attr` raises `AttributeError`. -/
def get_post_timestamp (div : PostDiv) : Except String (Option String) :=
  match div.timeTag with
  | none => .error "AttributeError"
  | some t => .ok t.datetime

/-- Lines 241-247 of crawlddit.py: `li = div.find('li', attrs={'class':'first'})`;
`return li.a['href']`.  `li` absent raises `AttributeError`; `li.a` absent
makes the subscript raise `TypeError`; missing `href` raises `KeyError`. -/
def get_link_to_comments (div : PostDiv) : Except String String :=
  match div.liFirst with
  | none => .error "AttributeError"
  | some li =>
    match li.a with
    | none => .error "TypeError"
    | some a =>
      match a.href with
      | none => .error "KeyError"
      | some h => .ok h

/-- Lines 195-201 of crawlddit.py (`parse_gfycat`): fetch the post's page and
find `<source id="webmSource">`; `return source['src'] if source else None`.
The page fetch and element search are the external capability `gfy` (spec §1
treats fetching/parsing as collaborators); `gfy url = none` models "no such
element".  When the element exists but has no `src` attribute, the subscript
raises `KeyError`. -/
def parse_gfycat (gfy : String → Option SourceTag) (url : String) :
    Except String (Option String) :=
  match gfy url with
  | none => .ok none
  | some source =>
    match source.src with
    | none => .error "KeyError"
    | some s => .ok (some s)

/-- Lines 175-192 of crawlddit.py (`get_image_link_from_allowed_domain`):
dispatch on the domain tag; every branch except gfycat returns `None`, and
the final dangling `else` returns `None` for unknown domains (the
`DomainMissingException` raise is commented out in the source). -/
def get_image_link_from_allowed_domain (gfy : String → Option SourceTag)
    (url : String) (domain : Option String) : Except String (Option String) :=
  if domain = some "reddit" then .ok none
  else if domain = some "imgur" then .ok none
  else if domain = some "gfycat" then parse_gfycat gfy url
  else if domain = some "tumblr" then .ok none
  else if domain = some "blogspot" then .ok none
  else .ok none

/-- The dictionary built by `image_dictionary` (lines 224-228 of
crawlddit.py): image url and corresponding filename. -/
structure ImageDict where
  image_url : Option String
  filename : Option String
deriving DecidableEq, Repr

/-- Lines 224-228 of crawlddit.py. -/
def image_dictionary (url filename : Option String) : ImageDict :=
  ⟨url, filename⟩

/-- Lines 163-172 of crawlddit.py (`get_image`): if the post url itself has a
known file format, pair it with its derived filename; otherwise resolve via
the domain dispatch, and derive a filename only when the resolved url is
truthy (Python: non-`None` and nonempty). -/
def get_image (gfy : String → Option SourceTag) (div : PostDiv) :
    Except String ImageDict :=
  match get_post_url div with
  | .error e => .error e
  | .ok url =>
    if (known_file_format url).isSome then
      match get_image_filename url with
      | .error e => .error e
      | .ok fn => .ok (image_dictionary (some url) (some fn))
    else
      match get_image_link_from_allowed_domain gfy url (known_domain url) with
      | .error e => .error e
      | .ok image_url =>
        match image_url with
        | none => .ok (image_dictionary none none)
        | some iu =>
          if iu = "" then .ok (image_dictionary (some iu) none)
          else
            match get_image_filename iu with
            | .error e => .error e
            | .ok fn => .ok (image_dictionary (some iu) (some fn))

/-- One entry of the queue built in `get_files_from_a_page` (lines 145-155 of
crawlddit.py), field names as in the source dictionary. -/
structure PostRecord where
  url : String
  image : ImageDict
  domain : Option String
  post_title : Option String
  posted_on : Option String
  link_to_comments : String
  on_page : Option String
  html_status_token : Nat
deriving DecidableEq, Repr

/-- The dictionary comprehension body for one `div` (lines 145-154 of
crawlddit.py), with the sub-extractions evaluated in source order; the first
raised exception aborts the whole comprehension. -/
def build_record (gfy : String → Option SourceTag) (pageUrl : Option String)
    (div : PostDiv) : Except String PostRecord :=
  match get_post_url div with
  | .error e => .error e
  | .ok u =>
    match get_image gfy div with
    | .error e => .error e
    | .ok img =>
      match get_post_domain div with
      | .error e => .error e
      | .ok dom =>
        match get_post_title div with
        | .error e => .error e
        | .ok title =>
          match get_post_timestamp div with
          | .error e => .error e
          | .ok ts =>
            match get_link_to_comments div with
            | .error e => .error e
            | .ok com => .ok ⟨u, img, dom, title, ts, com, pageUrl, 0⟩

/-- Effectful map over `Except`: the deque comprehension of
`get_files_from_a_page` evaluates one record per container in order and
propagates the first raised exception. -/
def mapExcept (f : α → Except String β) : List α → Except String (List β)
  | [] => .ok []
  | a :: as =>
    match f a with
    | .error e => .error e
    | .ok b =>
      match mapExcept f as with
      | .error e => .error e
      | .ok bs => .ok (b :: bs)

/-- Lines 157-158 of crawlddit.py: `next_page_span = soup.find('span', ...)`;
`next_page = next_page_span.a['href'] if next_page_span else None`.  A span
without an `<a>` makes the subscript raise `TypeError`; a missing `href`
raises `KeyError`. -/
def soup_next_page (soup : PageSoup) : Except String (Option String) :=
  match soup.nextSpan with
  | none => .ok none
  | some span =>
    match span.a with
    | none => .error "TypeError"
    | some a =>
      match a.href with
      | none => .error "KeyError"
      | some h => .ok (some h)

/-- Lines 139-160 of crawlddit.py (`get_files_from_a_page`): build one record
per post container, then read the next-page link. -/
def get_files_from_a_page (gfy : String → Option SourceTag) (soup : PageSoup)
    (url : Option String) : Except String (List PostRecord × Option String) :=
  match mapExcept (build_record gfy url) soup.things with
  | .error e => .error e
  | .ok images =>
    match soup_next_page soup with
    | .error e => .error e
    | .ok next_page => .ok (images, next_page)

/-! ### The crawl loop (`get_all_posts`, lines 111-136 of crawlddit.py)

The fetch-and-extract of one page (`make_beautiful_soup` composed with
`get_files_from_a_page`) is abstracted as a function from the page url to
the extracted records and the next-page link, as the spec treats rendering
as an injected capability.  The loop is embedded with explicit fuel; `none`
means the loop did not finish within the given fuel. -/

/-- Python truthiness of the `next_page` value: `None` and the empty string
are falsy (`if not next_page: crawl = False`, line 131). -/
def falsyUrl : Option String → Bool
  | none => true
  | some s => s == ""

/-- The `while (page <= pages) and crawl` loop of `get_all_posts`
(lines 123-133 of crawlddit.py).  State: current url (`none` models the
Python variable holding `None`), `page`, `pages`, `crawl`, the accumulated
`images`, and a count of pages fetched so far.  Fetching with a `None` url
would raise in Python; it is unreachable from `get_all_posts` and modelled
as `none` (no result). -/
def get_all_posts_loop (fetch : String → List PostRecord × Option String) :
    Nat → Option String → Nat → Nat → Bool → List PostRecord → Nat →
    Option (List PostRecord × Nat)
  | 0, _, _, _, _, _, _ => none
  | fuel + 1, url, page, pages, crawl, images, count =>
    if page ≤ pages ∧ crawl = true then
      match url with
      | none => none
      | some u =>
        let res := fetch u
        get_all_posts_loop fetch fuel res.2
          (if pages ≠ 0 then page + 1 else page) pages
          (if falsyUrl res.2 then false else crawl)
          (images ++ res.1) (count + 1)
    else some (images, count)

/-- Lines 111-136 of crawlddit.py (`get_all_posts`): `page = 1 if pages else 0`,
`crawl = True`, empty deque, then the while loop.  Returns the accumulated
records together with the number of pages fetched, or `none` when the loop
does not finish within `fuel` iterations. -/
def get_all_posts (fetch : String → List PostRecord × Option String)
    (fuel : Nat) (url : String) (pages : Nat) : Option (List PostRecord × Nat) :=
  get_all_posts_loop fetch fuel (some url) (if pages ≠ 0 then 1 else 0) pages true [] 0

/-- The chain of next-page links from `u`: `chainTo fetch u k` holds when
following truthy next links succeeds `k` times and the page reached after
those `k` steps yields a falsy next value (absent marker or empty link). -/
def chainTo (fetch : String → List PostRecord × Option String) :
    String → Nat → Prop
  | u, 0 => falsyUrl (fetch u).2 = true
  | u, k + 1 =>
    falsyUrl (fetch u).2 = false ∧
      ∃ u2, (fetch u).2 = some u2 ∧ chainTo fetch u2 k

/-! ### The download-state store and `download_files` (utils/downloader.py) -/

/-- One row of the `images` table (DB_TEMPLATE, lines 17-33 of
utils/downloader.py): PostUrl, ImageUrl, Filename, Domain, PostTitle,
CommentSectionUrl, PostedOn, LastHtmlStatusCode, Downloaded, DownloadDate. -/
structure StoreRow where
  sourceUrl : String
  imageUrl : Option String
  filename : Option String
  domain : Option String
  title : Option String
  commentsUrl : String
  postedAt : Option String
  lastFetchStatus : Nat
  downloaded : Bool
  downloadDate : Option String
deriving DecidableEq, Repr

/-- Modelled from the spec: no `upsert` exists under src — utils/downloader.py
declares only the `images` schema and a connection helper, and
`download_files` never writes a row — so the update of an existing row is
taken from spec §4.5: "re-crawling the same post updates mutable fields
(status, resolved media info) without ... resetting `downloaded`/`downloadDate`
once set". -/
def updateRow (old : StoreRow) (r : PostRecord) : StoreRow :=
  ⟨old.sourceUrl, r.image.image_url, r.image.filename, r.domain, r.post_title,
    r.link_to_comments, r.posted_on, r.html_status_token,
    old.downloaded, old.downloadDate⟩

/-- Modelled from the spec: the row created "on first sighting of a
sourceUrl" (spec §3), with `downloaded` false and `downloadDate` null as in
the schema's lifecycle. -/
def newRow (r : PostRecord) : StoreRow :=
  ⟨r.url, r.image.image_url, r.image.filename, r.domain, r.post_title,
    r.link_to_comments, r.posted_on, r.html_status_token, false, none⟩

/-- The key of a store row with respect to an incoming record: equality of
`sourceUrl` (spec §4.5: "idempotent on `sourceUrl`"). -/
def key_fn (r : PostRecord) (row : StoreRow) : Bool :=
  row.sourceUrl == r.url

/-- The per-row update of `upsert`: rows matching the key get their mutable
fields replaced, other rows are untouched. -/
def upsert_fn (r : PostRecord) (row : StoreRow) : StoreRow :=
  if row.sourceUrl == r.url then updateRow row r else row

/-- Modelled from the spec: `DownloadStateStore.upsert` (spec §4.5), absent
from src.  The store is the list of rows of the `images` table; `upsert` is
keyed on `sourceUrl`: update the matching rows' mutable fields when a match
exists, otherwise append a fresh row. -/
def upsert (store : List StoreRow) (r : PostRecord) : List StoreRow :=
  if store.any (key_fn r) then store.map (upsert_fn r)
  else store ++ [newRow r]

/-- Lines 35-69 of utils/downloader.py (`download_files`).  Line 47 reads
`clean_path(path)` but no name `path` is in scope (the parameters are
`files`, `destination`, `verbose` and the module defines no `path`), so every
call raises `NameError` there, before the database is opened or the loop
runs.  The result type records the downloads that would be reported. -/
def download_files (files : List PostRecord) (destination : String)
    (verbose : Bool) : Except String (List String) :=
  .error "NameError"

/-- Lines 59-68 of utils/downloader.py: the `while files` loop, evaluated on
its own (as it would run were `db_path` obtained).  Each iteration pops the
left element; when `file_obj['image']['image_url']` is truthy and `verbose`
is set, line 66 calls `display_status`, another name defined nowhere in the
module, raising `NameError`.  No branch downloads a file or writes to the
database: the result is the unchanged store paired with the list of urls
transferred, which is empty by the code itself. -/
def download_files_loop (store : List StoreRow) (verbose : Bool) :
    List PostRecord → Except String (List StoreRow × List String)
  | [] => .ok (store, [])
  | f :: rest =>
    match f.image.image_url with
    | some u =>
      if u ≠ "" ∧ verbose = true then .error "NameError"
      else download_files_loop store verbose rest
    | none => download_files_loop store verbose rest

/-- The filename derivation as claim C5 states it: take the final path
segment; when a known extension (first of `FILE_FORMATS` to occur as a
substring of the url) occurs, return the prefix of that segment up to and
including the FIRST occurrence of the matched extension; otherwise return
`none`, never failing. -/
def deriveFilename_claim (url : String) : Option String :=
  match known_file_format url with
  | none => none
  | some extension =>
    let seg := lastSegment url
    match ((List.range (seg.length + 1)).filter
        (fun p => extension.toList.isPrefixOf (seg.drop p))).head? with
    | some p => some (String.mk (seg.take p ++ extension.toList))
    | none => none

/-! ### Helper lemmas -/

theorem isPrefixOf_iff_exists_append (p l : List Char) :
    p.isPrefixOf l = true ↔ ∃ t, l = p ++ t := by
  induction p generalizing l with
  | nil => simp [List.isPrefixOf]
  | cons a as ih =>
    cases l with
    | nil => simp [List.isPrefixOf]
    | cons b bs =>
      simp only [List.isPrefixOf, Bool.and_eq_true, beq_iff_eq, ih, List.cons_append,
        List.cons.injEq]
      constructor
      · rintro ⟨rfl, t, rfl⟩
        exact ⟨t, rfl, rfl⟩
      · rintro ⟨t, rfl, rfl⟩
        exact ⟨rfl, t, rfl⟩

theorem listContains_iff (p l : List Char) :
    listContains p l = true ↔ ∃ s t, l = s ++ p ++ t := by
  induction l with
  | nil =>
    simp only [listContains, List.isEmpty_iff]
    constructor
    · rintro rfl
      exact ⟨[], [], rfl⟩
    · rintro ⟨s, t, h⟩
      rcases List.append_eq_nil.mp (List.append_eq_nil.mp h.symm).1 with ⟨-, h2⟩
      exact h2
  | cons c cs ih =>
    simp only [listContains, Bool.or_eq_true, isPrefixOf_iff_exists_append, ih]
    constructor
    · rintro (⟨t, h⟩ | ⟨s, t, rfl⟩)
      · exact ⟨[], t, by simp [h]⟩
      · exact ⟨c :: s, t, rfl⟩
    · rintro ⟨s, t, h⟩
      cases s with
      | nil => exact Or.inl ⟨t, by simpa using h⟩
      | cons x xs =>
        rw [List.cons_append, List.cons_append] at h
        injection h with h1 h2
        exact Or.inr ⟨xs, t, h2⟩

theorem strContains_iff (needle haystack : String) :
    strContains needle haystack = true ↔
      ∃ s t, haystack.toList = s ++ needle.toList ++ t :=
  listContains_iff needle.toList haystack.toList

theorem find?_eq_some_split {α : Type} (p : α → Bool) (l : List α) (a : α) :
    l.find? p = some a ↔
      ∃ l1 l2, l = l1 ++ a :: l2 ∧ p a = true ∧ ∀ x ∈ l1, p x = false := by
  induction l with
  | nil => simp [List.find?]
  | cons b bs ih =>
    by_cases hb : p b = true
    · simp only [List.find?, hb, Option.some.injEq]
      constructor
      · rintro rfl
        exact ⟨[], bs, rfl, hb, by simp⟩
      · rintro ⟨l1, l2, heq, hpa, hall⟩
        cases l1 with
        | nil =>
          simp only [List.nil_append, List.cons.injEq] at heq
          exact heq.1
        | cons x xs =>
          simp only [List.cons_append, List.cons.injEq] at heq
          have hx := hall x (by simp)
          rw [← heq.1] at hx
          simp [hx] at hb
    · have hb2 : p b = false := by simpa using hb
      simp only [List.find?, hb2, ih]
      constructor
      · rintro ⟨l1, l2, rfl, hpa, hall⟩
        refine ⟨b :: l1, l2, rfl, hpa, ?_⟩
        intro x hx
        rcases List.mem_cons.mp hx with rfl | hx2
        · exact hb2
        · exact hall x hx2
      · rintro ⟨l1, l2, heq, hpa, hall⟩
        cases l1 with
        | nil =>
          injection heq with h1 h2
          subst h1
          exact absurd hpa (by simp [hb2])
        | cons x xs =>
          injection heq with h1 h2
          subst h1
          exact ⟨xs, l2, h2, hpa, fun y hy => hall y (by simp [hy])⟩

theorem findLastPos_eq_some_iff (ext cand : List Char) (n p : Nat) :
    findLastPos ext cand n = some p ↔
      p ≤ n ∧ validPos ext cand p = true ∧
        ∀ q, q ≤ n → validPos ext cand q = true → q ≤ p := by
  induction n with
  | zero =>
    have h0 : findLastPos ext cand 0 = none := rfl
    rw [h0]
    constructor
    · intro h
      exact Option.noConfusion h
    · rintro ⟨hp, hv, -⟩
      have hp0 : p = 0 := Nat.le_zero.mp hp
      rw [hp0] at hv
      simp [validPos] at hv
  | succ m ih =>
    by_cases hv : validPos ext cand (m + 1) = true
    · have hstep : findLastPos ext cand (m + 1) = some (m + 1) := by
        simp [findLastPos, hv]
      rw [hstep]
      constructor
      · intro h
        rw [Option.some.injEq] at h
        subst h
        exact ⟨le_refl _, hv, fun q hq _ => hq⟩
      · rintro ⟨hp, hvp, hmax⟩
        rw [Option.some.injEq]
        exact le_antisymm (hmax (m + 1) (le_refl _) hv) hp
    · have hv2 : validPos ext cand (m + 1) = false := by simpa using hv
      have hstep : findLastPos ext cand (m + 1) = findLastPos ext cand m := by
        simp [findLastPos, hv2]
      rw [hstep, ih]
      constructor
      · rintro ⟨hp, hvp, hmax⟩
        refine ⟨Nat.le_succ_of_le hp, hvp, fun q hq hq2 => ?_⟩
        rcases Nat.lt_or_ge q (m + 1) with h | h
        · exact hmax q (Nat.lt_succ_iff.mp h) hq2
        · have hq1 : q = m + 1 := le_antisymm hq h
          rw [hq1, hv2] at hq2
          exact Bool.noConfusion hq2
      · rintro ⟨hp, hvp, hmax⟩
        have hpm : p ≤ m := by
          rcases Nat.lt_or_ge p (m + 1) with h | h
          · exact Nat.lt_succ_iff.mp h
          · have hp1 : p = m + 1 := le_antisymm hp h
            rw [hp1, hv2] at hvp
            exact Bool.noConfusion hvp
        exact ⟨hpm, hvp, fun q hq hq2 => hmax q (Nat.le_succ_of_le hq) hq2⟩

theorem findLastPos_eq_none_iff (ext cand : List Char) (n : Nat) :
    findLastPos ext cand n = none ↔
      ∀ q, q ≤ n → validPos ext cand q = false := by
  induction n with
  | zero =>
    have h0 : findLastPos ext cand 0 = none := rfl
    rw [h0]
    constructor
    · intro _ q hq
      have hq0 : q = 0 := Nat.le_zero.mp hq
      rw [hq0]
      simp [validPos]
    · intro _
      rfl
  | succ m ih =>
    by_cases hv : validPos ext cand (m + 1) = true
    · have hstep : findLastPos ext cand (m + 1) = some (m + 1) := by
        simp [findLastPos, hv]
      rw [hstep]
      constructor
      · intro h
        exact Option.noConfusion h
      · intro h
        have hc := h (m + 1) (le_refl _)
        rw [hv] at hc
        exact Bool.noConfusion hc
    · have hv2 : validPos ext cand (m + 1) = false := by simpa using hv
      have hstep : findLastPos ext cand (m + 1) = findLastPos ext cand m := by
        simp [findLastPos, hv2]
      rw [hstep, ih]
      constructor
      · intro h q hq
        rcases Nat.lt_or_ge q (m + 1) with hlt | hge
        · exact h q (Nat.lt_succ_iff.mp hlt)
        · have hq1 : q = m + 1 := le_antisymm hq hge
          rw [hq1]
          exact hv2
      · intro h q hq
        exact h q (Nat.le_succ_of_le hq)

theorem validPos_le_length (ext cand : List Char) (q : Nat)
    (hne : ext ≠ []) (h : validPos ext cand q = true) : q ≤ cand.length := by
  by_contra hgt
  have hq : cand.length < q := Nat.lt_of_not_le hgt
  have hdrop : cand.drop q = [] := List.drop_eq_nil_of_le (le_of_lt hq)
  simp only [validPos, Bool.and_eq_true] at h
  rcases h with ⟨⟨-, hpre⟩, -⟩
  rw [hdrop] at hpre
  rcases isPrefixOf_iff_exists_append ext [] |>.mp hpre with ⟨t, ht⟩
  rcases List.append_eq_nil.mp ht.symm with ⟨h1, -⟩
  exact hne h1

theorem mapExcept_ok_of_all {α β : Type} (f : α → Except String β) (l : List α)
    (h : ∀ a ∈ l, ∃ b, f a = .ok b) :
    ∃ bs, mapExcept f l = .ok bs ∧ bs.length = l.length := by
  induction l with
  | nil => exact ⟨[], rfl, rfl⟩
  | cons a as ih =>
    rcases h a (by simp) with ⟨b, hb⟩
    rcases ih (fun x hx => h x (by simp [hx])) with ⟨bs, hbs, hlen⟩
    refine ⟨b :: bs, ?_, by simp [hlen]⟩
    simp [mapExcept, hb, hbs]

theorem mapExcept_error_of_mem {α β : Type} (f : α → Except String β)
    (l : List α) (a : α) (ha : a ∈ l) (hf : ∀ b, f a ≠ .ok b) :
    ∃ e, mapExcept f l = .error e := by
  induction l with
  | nil => cases ha
  | cons x xs ih =>
    rcases List.mem_cons.mp ha with rfl | hmem
    · match hx : f a with
      | .error e => exact ⟨e, by simp [mapExcept, hx]⟩
      | .ok b => exact absurd hx (hf b)
    · match hx : f x with
      | .error e => exact ⟨e, by simp [mapExcept, hx]⟩
      | .ok b =>
        rcases ih hmem with ⟨e, he⟩
        exact ⟨e, by simp [mapExcept, hx, he]⟩

/-! ### Claim theorems -/

/-- Claim C10 (confirmed): for every URL, `known_domain` returns the first
element of `DOMAINS` (in list order) that occurs as a substring anywhere in
the URL — not only in its host part — and `none` when no listed name occurs. -/
theorem C10_known_domain_first_substring (url : String) :
    (∀ d, known_domain url = some d ↔
        ∃ l1 l2, DOMAINS = l1 ++ d :: l2 ∧
          (∃ s t, url.toList = s ++ d.toList ++ t) ∧
          ∀ e ∈ l1, ¬ ∃ s t, url.toList = s ++ e.toList ++ t) ∧
    (known_domain url = none ↔
        ∀ d ∈ DOMAINS, ¬ ∃ s t, url.toList = s ++ d.toList ++ t) := by
  constructor
  · intro d
    rw [known_domain, find?_eq_some_split]
    constructor
    · rintro ⟨l1, l2, hsplit, hd, hall⟩
      refine ⟨l1, l2, hsplit, (strContains_iff d url).mp hd, fun e he hex => ?_⟩
      have hfalse := hall e he
      have htrue := (strContains_iff e url).mpr hex
      rw [hfalse] at htrue
      exact Bool.noConfusion htrue
    · rintro ⟨l1, l2, hsplit, hex, hnone⟩
      refine ⟨l1, l2, hsplit, (strContains_iff d url).mpr hex, fun e he => ?_⟩
      by_contra hne
      have htrue : strContains e url = true := by
        cases hb : strContains e url
        · exact absurd hb hne
        · rfl
      exact hnone e he ((strContains_iff e url).mp htrue)
  · rw [known_domain, List.find?_eq_none]
    constructor
    · intro h d hd hex
      exact h d hd ((strContains_iff d url).mpr hex)
    · intro h d hd hc
      exact h d hd ((strContains_iff d url).mp hc)

/-- Claim C6 (amended): the resolver returns `.ok` for every pair whenever
the gfycat page capability yields no `webmSource` element lacking a `src`
attribute, and for every domain tag outside the known set it returns `none`
silently; but when the fetched gfycat page has a `webmSource` element with
no `src` attribute, the gfycat branch raises `KeyError`. -/
theorem C6_resolver_amended (gfy : String → Option SourceTag)
    (url : String) (domain : Option String) :
    ((∀ t, gfy url = some t → t.src.isSome = true) →
        ∃ v, get_image_link_from_allowed_domain gfy url domain = .ok v) ∧
    ((∀ d ∈ DOMAINS, domain ≠ some d) →
        get_image_link_from_allowed_domain gfy url domain = .ok none) := by
  constructor
  · intro hsrc
    by_cases h1 : domain = some "reddit"
    · exact ⟨none, by simp [get_image_link_from_allowed_domain, h1]⟩
    by_cases h2 : domain = some "imgur"
    · exact ⟨none, by simp [get_image_link_from_allowed_domain, h1, h2]⟩
    by_cases h3 : domain = some "gfycat"
    · cases hg : gfy url with
      | none =>
        exact ⟨none, by
          simp [get_image_link_from_allowed_domain, h1, h2, h3, parse_gfycat, hg]⟩
      | some t =>
        have hs := hsrc t hg
        cases hsv : t.src with
        | none => rw [hsv] at hs; exact Bool.noConfusion hs
        | some s =>
          exact ⟨some s, by
            simp [get_image_link_from_allowed_domain, h1, h2, h3, parse_gfycat, hg, hsv]⟩
    by_cases h4 : domain = some "tumblr"
    · exact ⟨none, by simp [get_image_link_from_allowed_domain, h1, h2, h3, h4]⟩
    by_cases h5 : domain = some "blogspot"
    · exact ⟨none, by simp [get_image_link_from_allowed_domain, h1, h2, h3, h4, h5]⟩
    exact ⟨none, by simp [get_image_link_from_allowed_domain, h1, h2, h3, h4, h5]⟩
  · intro hd
    have h1 := hd "reddit" (by simp [DOMAINS])
    have h2 := hd "imgur" (by simp [DOMAINS])
    have h3 := hd "gfycat" (by simp [DOMAINS])
    have h4 := hd "tumblr" (by simp [DOMAINS])
    have h5 := hd "blogspot" (by simp [DOMAINS])
    simp [get_image_link_from_allowed_domain, h1, h2, h3, h4, h5]

/-- Claim C6 witness: the resolver applied to an unknown domain tag with a
fetch capability that finds no source element. -/
theorem C6_witness :
    (∃ v, get_image_link_from_allowed_domain (fun _ => none)
        "https://example.com/post" (some "example") = .ok v) ∧
    get_image_link_from_allowed_domain (fun _ => none)
        "https://example.com/post" (some "example") = .ok none :=
  ⟨(C6_resolver_amended (fun _ => none) "https://example.com/post"
      (some "example")).1 (fun t h => Option.noConfusion h),
   (C6_resolver_amended (fun _ => none) "https://example.com/post"
      (some "example")).2 (by decide)⟩

/-- Claim C6 counterexample: the claim says the resolver never raises, but a
gfycat post whose page carries a `webmSource` element without a `src`
attribute makes line 201 of crawlddit.py raise `KeyError`. -/
theorem C6_counterexample :
    get_image_link_from_allowed_domain (fun _ => some ⟨none⟩)
      "https://gfycat.com/clip" (some "gfycat") = .error "KeyError" := by
  rfl

/-- Claim C8 (amended): a present `<time>` element without a `datetime`
attribute and a title anchor without text are tolerated — the sub-extraction
yields `none` and the record is still produced — but an absent `<time>`
element, or an absent domain label (or a domain label without an anchor),
raises `AttributeError` and fails the record. -/
theorem C8_optional_fields_amended (div : PostDiv) :
    (∀ t, div.timeTag = some t → t.datetime = none →
        get_post_timestamp div = .ok none) ∧
    (div.timeTag = none → get_post_timestamp div = .error "AttributeError") ∧
    (∀ p, get_p_title_tag div = some p → p.domainSpan = none →
        get_post_domain div = .error "AttributeError") ∧
    (∀ p a, get_p_title_tag div = some p → p.a = some a → a.string = none →
        get_post_title div = .ok none) ∧
    (∀ gfy pageUrl u img dom title com,
        get_post_url div = .ok u → get_image gfy div = .ok img →
        get_post_domain div = .ok dom → get_post_title div = .ok title →
        div.timeTag = some ⟨none⟩ → get_link_to_comments div = .ok com →
        build_record gfy pageUrl div =
          .ok ⟨u, img, dom, title, none, com, pageUrl, 0⟩) := by
  refine ⟨?_, ?_, ?_, ?_, ?_⟩
  · intro t ht hd
    simp [get_post_timestamp, ht, hd]
  · intro ht
    simp [get_post_timestamp, ht]
  · intro p hp hd
    simp [get_post_domain, hp, hd]
  · intro p a hp ha hs
    simp [get_post_title, hp, ha, hs]
  · intro gfy pageUrl u img dom title com hu himg hdom htitle ht hcom
    have hts : get_post_timestamp div = .ok none := by
      simp [get_post_timestamp, ht]
    simp [build_record, hu, himg, hdom, htitle, hts, hcom]

/-- Claim C8 witness: a container whose `<time>` element lacks `datetime`
still yields a full record with an absent timestamp. -/
theorem C8_witness :
    get_post_timestamp
        ⟨some ⟨some ⟨some "http://a/f.png", some "T"⟩,
            some ⟨some ⟨some "/d", some "a.com"⟩⟩⟩,
          some ⟨none⟩, some ⟨some ⟨some "/comments/1", none⟩⟩⟩ = .ok none ∧
    build_record (fun _ => none) (some "page1")
        ⟨some ⟨some ⟨some "http://a/f.png", some "T"⟩,
            some ⟨some ⟨some "/d", some "a.com"⟩⟩⟩,
          some ⟨none⟩, some ⟨some ⟨some "/comments/1", none⟩⟩⟩ =
      .ok ⟨"http://a/f.png", ⟨some "http://a/f.png", some "f.png"⟩,
        some "a.com", some "T", none, "/comments/1", some "page1", 0⟩ :=
  ⟨(C8_optional_fields_amended _).1 ⟨none⟩ rfl rfl,
   (C8_optional_fields_amended _).2.2.2.2 (fun _ => none) (some "page1")
     "http://a/f.png" ⟨some "http://a/f.png", some "f.png"⟩
     (some "a.com") (some "T") "/comments/1"
     (by decide) (by decide) (by decide) (by decide) rfl (by decide)⟩

/-- Claim C8 counterexample: the claim says an absent timestamp element is
tolerated (`none`, record still produced); in the code `div.find('time')`
returns `None` and line 255 calls `.has_attr` on it, raising
`AttributeError`, so the record build fails. -/
theorem C8_counterexample :
    get_post_timestamp
        ⟨some ⟨some ⟨some "http://a/f.png", some "T"⟩,
            some ⟨some ⟨some "/d", some "a.com"⟩⟩⟩,
          none, some ⟨some ⟨some "/comments/1", none⟩⟩⟩ =
      .error "AttributeError" ∧
    build_record (fun _ => none) (some "page1")
        ⟨some ⟨some ⟨some "http://a/f.png", some "T"⟩,
            some ⟨some ⟨some "/d", some "a.com"⟩⟩⟩,
          none, some ⟨some ⟨some "/comments/1", none⟩⟩⟩ =
      .error "AttributeError" := by
  constructor
  · rfl
  · decide

/-- Claim C2 (code_bug): `download_files` performs no download and no store
write.  Line 47 of utils/downloader.py reads the undefined name `path`, so
every call raises `NameError` immediately; and even the `while files` loop
on its own (lines 59-68) only pops records and displays status — when it
finishes, the store is unchanged and the list of transferred files is empty. -/
theorem C2_download_files_never_downloads :
    (∀ files destination verbose,
        download_files files destination verbose = .error "NameError") ∧
    (∀ store files, download_files_loop store false files = .ok (store, [])) := by
  constructor
  · intro files destination verbose
    rfl
  · intro store files
    induction files with
    | nil => rfl
    | cons f rest ih =>
      cases hu : f.image.image_url with
      | none => simp [download_files_loop, hu, ih]
      | some u => simp [download_files_loop, hu, ih]

/-- Extensions of `FILE_FORMATS` found by `known_file_format` are nonempty
strings, so a match position never exceeds the candidate’s length. -/
theorem known_file_format_ext_ne_nil (url extension : String)
    (h : known_file_format url = some extension) : extension.toList ≠ [] := by
  have hmem : extension ∈ FILE_FORMATS := List.mem_of_find?_eq_some h
  simp only [FILE_FORMATS, List.mem_cons, List.not_mem_nil, or_false] at hmem
  rcases hmem with rfl | rfl | rfl | rfl | rfl <;> decide

/-- Claim C5 (amended): when `get_image_filename` returns a value, the value
is the prefix of the final path segment up to and including the LAST
occurrence of the matched extension that is preceded by at least one
non-newline character (the greedy `.+` of the regex); when no known
extension occurs in the URL the call raises `TypeError` instead of returning
absent; and when the matched extension occurs at no such position of the
final segment the call raises `AttributeError`. -/
theorem C5_filename_derivation_amended (url : String) :
    (∀ r, get_image_filename url = .ok r →
        ∃ extension p, known_file_format url = some extension ∧
          validPos extension.toList (lastSegment url) p = true ∧
          (∀ q, validPos extension.toList (lastSegment url) q = true → q ≤ p) ∧
          r = String.mk ((lastSegment url).take p ++ extension.toList)) ∧
    (known_file_format url = none → get_image_filename url = .error "TypeError") ∧
    (∀ extension, known_file_format url = some extension →
        (∀ q, q ≤ (lastSegment url).length →
          validPos extension.toList (lastSegment url) q = false) →
        get_image_filename url = .error "AttributeError") := by
  refine ⟨?_, ?_, ?_⟩
  · intro r h
    cases hk : known_file_format url with
    | none => simp [get_image_filename, hk] at h
    | some extension =>
      simp only [get_image_filename, hk] at h
      cases hm : findLastPos extension.toList (lastSegment url)
          (lastSegment url).length with
      | none =>
        have hm2 : findLastPos extension.data (lastSegment url)
            (lastSegment url).length = none := hm
        simp [dotPlusMatch, hm2] at h
      | some p =>
        simp only [dotPlusMatch, hm, Except.ok.injEq] at h
        rcases (findLastPos_eq_some_iff extension.toList (lastSegment url)
            (lastSegment url).length p).mp hm with ⟨hple, hvp, hmax⟩
        refine ⟨extension, p, rfl, hvp, fun q hq => ?_, ?_⟩
        · exact hmax q (validPos_le_length extension.toList (lastSegment url) q
            (known_file_format_ext_ne_nil url extension hk) hq) hq
        · exact h.symm
  · intro hk
    simp [get_image_filename, hk]
  · intro extension hk hall
    have hnone : findLastPos extension.data (lastSegment url)
        (lastSegment url).length = none :=
      (findLastPos_eq_none_iff extension.toList (lastSegment url)
        (lastSegment url).length).mpr hall
    simp [get_image_filename, hk, dotPlusMatch, hnone]

/-- Claim C5 witness: the three behaviours of the amended claim at concrete
urls. -/
theorem C5_witness :
    (∃ extension p, known_file_format "http://host/a.jpg" = some extension ∧
        validPos extension.toList (lastSegment "http://host/a.jpg") p = true ∧
        (∀ q, validPos extension.toList (lastSegment "http://host/a.jpg") q = true →
          q ≤ p) ∧
        "a.jpg" = String.mk
          ((lastSegment "http://host/a.jpg").take p ++ extension.toList)) ∧
    get_image_filename "http://host/nothing" = .error "TypeError" ∧
    get_image_filename "http://b.jpg/x" = .error "AttributeError" :=
  ⟨(C5_filename_derivation_amended "http://host/a.jpg").1 "a.jpg" (by decide),
   (C5_filename_derivation_amended "http://host/nothing").2.1 (by decide),
   (C5_filename_derivation_amended "http://b.jpg/x").2.2 ".jpg" (by decide)
     (by decide)⟩

/-- Claim C5 counterexample: the claim predicts the prefix up to the FIRST
occurrence of the matched extension and a silent absent result for urls
without a known extension; the code returns the prefix up to the LAST
occurrence (greedy `.+`) and raises `TypeError` when no known extension
occurs. -/
theorem C5_counterexample :
    deriveFilename_claim "a.jpg.jpgx" = some "a.jpg" ∧
    get_image_filename "a.jpg.jpgx" = .ok "a.jpg.jpg" ∧
    deriveFilename_claim "nothing-known" = none ∧
    get_image_filename "nothing-known" = .error "TypeError" := by
  refine ⟨?_, ?_, ?_, ?_⟩ <;> rfl

/-- A url with a known file format is nonempty. -/
theorem known_file_format_url_ne_empty (url extension : String)
    (h : known_file_format url = some extension) : url ≠ "" := by
  intro hurl
  subst hurl
  have hfind : FILE_FORMATS.find? (fun e => strContains e "") = some extension := h
  have hc0 := List.find?_some hfind
  have hc : strContains extension "" = true := hc0
  rcases (strContains_iff extension "").mp hc with ⟨s, t, hst⟩
  have hnil : s ++ extension.toList ++ t = ([] : List Char) := hst.symm
  rcases List.append_eq_nil.mp hnil with ⟨h1, -⟩
  rcases List.append_eq_nil.mp h1 with ⟨-, h2⟩
  exact known_file_format_ext_ne_nil "" extension h h2

/-- A successful filename derivation needs a known file format in the url. -/
theorem get_image_filename_ok_known (u fn : String)
    (h : get_image_filename u = .ok fn) : (known_file_format u).isSome = true := by
  cases hk : known_file_format u with
  | none => simp [get_image_filename, hk] at h
  | some e => simp [hk]

/-- Claim C9 (amended): for every media reference built WITHOUT raising,
`filename` is present iff `image_url` is present and nonempty, and whenever
`filename` is present the `image_url` contains a known extension; but
building can raise (a resolved gfycat src without a known extension reaches
`get_image_filename`, which raises), and a resolved empty-string src gives a
present-but-empty `image_url` with an absent `filename`. -/
theorem C9_media_reference_amended (gfy : String → Option SourceTag)
    (div : PostDiv) (d : ImageDict) (h : get_image gfy div = .ok d) :
    (d.filename.isSome = true ↔ ∃ u, d.image_url = some u ∧ u ≠ "") ∧
    (∀ fn, d.filename = some fn →
        ∃ u, d.image_url = some u ∧ (known_file_format u).isSome = true) := by
  cases hu : get_post_url div with
  | error e => simp [get_image, hu] at h
  | ok url =>
    simp only [get_image, hu] at h
    by_cases hk : (known_file_format url).isSome = true
    · rw [if_pos hk] at h
      cases hf : get_image_filename url with
      | error e => simp [hf] at h
      | ok fn =>
        simp only [hf, Except.ok.injEq] at h
        subst h
        have hne : url ≠ "" := by
          rcases Option.isSome_iff_exists.mp hk with ⟨extension, hext⟩
          exact known_file_format_url_ne_empty url extension hext
        refine ⟨⟨fun _ => ⟨url, rfl, hne⟩, fun _ => rfl⟩, fun fn2 hfn2 => ⟨url, rfl, hk⟩⟩
    · rw [if_neg hk] at h
      cases hr : get_image_link_from_allowed_domain gfy url (known_domain url) with
      | error e => simp [hr] at h
      | ok image_url =>
        simp only [hr] at h
        cases image_url with
        | none =>
          simp only [Except.ok.injEq] at h
          subst h
          refine ⟨⟨fun hs => ?_, fun hex => ?_⟩, fun fn hfn => ?_⟩
          · exact absurd hs (by simp [image_dictionary])
          · rcases hex with ⟨u, hu2, -⟩
            exact absurd hu2 (by simp [image_dictionary])
          · exact absurd hfn (by simp [image_dictionary])
        | some iu =>
          dsimp only at h
          by_cases hiu : iu = ""
          · rw [if_pos hiu] at h
            simp only [Except.ok.injEq] at h
            subst h
            subst hiu
            refine ⟨⟨fun hs => ?_, fun hex => ?_⟩, fun fn hfn => ?_⟩
            · exact absurd hs (by simp [image_dictionary])
            · rcases hex with ⟨u, hu2, hne⟩
              simp only [image_dictionary, Option.some.injEq] at hu2
              exact absurd hu2.symm hne
            · exact absurd hfn (by simp [image_dictionary])
          · rw [if_neg hiu] at h
            cases hf : get_image_filename iu with
            | error e => simp [hf] at h
            | ok fn =>
              simp only [hf, Except.ok.injEq] at h
              subst h
              exact ⟨⟨fun _ => ⟨iu, rfl, hiu⟩, fun _ => rfl⟩,
                fun fn2 hfn2 => ⟨iu, rfl, get_image_filename_ok_known iu fn hf⟩⟩

/-- Claim C9 witness: a post linking directly at a `.png` file. -/
theorem C9_witness :
    ((image_dictionary (some "http://a/f.png") (some "f.png")).filename.isSome = true ↔
        ∃ u, (image_dictionary (some "http://a/f.png")
          (some "f.png")).image_url = some u ∧ u ≠ "") ∧
    (∀ fn, (image_dictionary (some "http://a/f.png") (some "f.png")).filename = some fn →
        ∃ u, (image_dictionary (some "http://a/f.png")
            (some "f.png")).image_url = some u ∧
          (known_file_format u).isSome = true) :=
  C9_media_reference_amended (fun _ => none)
    ⟨some ⟨some ⟨some "http://a/f.png", none⟩, none⟩, none, none⟩
    (image_dictionary (some "http://a/f.png") (some "f.png")) (by decide)

/-- Claim C9 counterexample: the claim says building the media reference
never fails and that outside the both-present case both fields are absent;
but a gfycat post whose resolved `src` has no known extension raises
`TypeError`, and a resolved empty `src` yields a present-but-empty
`image_url` with an absent `filename`. -/
theorem C9_counterexample :
    get_image (fun _ => some ⟨some "https://giant.gfycat.com/clip"⟩)
      ⟨some ⟨some ⟨some "https://gfycat.com/abc", none⟩, none⟩, none, none⟩ =
      .error "TypeError" ∧
    get_image (fun _ => some ⟨some ""⟩)
      ⟨some ⟨some ⟨some "https://gfycat.com/abc", none⟩, none⟩, none, none⟩ =
      .ok ⟨some "", none⟩ := by
  exact ⟨rfl, rfl⟩

/-- Claim C7 (amended): a post container whose comments link (or any other
mandatory element) cannot be extracted makes the whole page's extraction
raise — no record of that page survives, also not the well-formed ones —
while a page whose containers are all well-formed yields one record per
container. -/
theorem C7_malformed_container_amended (gfy : String → Option SourceTag)
    (soup : PageSoup) (pageUrl : Option String) :
    ((∃ div ∈ soup.things, ∀ rec, build_record gfy pageUrl div ≠ .ok rec) →
        ∃ e, get_files_from_a_page gfy soup pageUrl = .error e) ∧
    ((∀ div ∈ soup.things, ∃ rec, build_record gfy pageUrl div = .ok rec) →
      ∀ np, soup_next_page soup = .ok np →
        ∃ recs, get_files_from_a_page gfy soup pageUrl = .ok (recs, np) ∧
          recs.length = soup.things.length) := by
  constructor
  · rintro ⟨div, hmem, hbad⟩
    rcases mapExcept_error_of_mem (build_record gfy pageUrl) soup.things div
      hmem hbad with ⟨e, he⟩
    exact ⟨e, by simp [get_files_from_a_page, he]⟩
  · intro hall np hnp
    rcases mapExcept_ok_of_all (build_record gfy pageUrl) soup.things hall
      with ⟨recs, hrecs, hlen⟩
    exact ⟨recs, by simp [get_files_from_a_page, hrecs, hnp], hlen⟩

/-- Claim C7 witness: a page with one malformed container raises; a page
with one well-formed container yields exactly one record. -/
theorem C7_witness :
    (∃ e, get_files_from_a_page (fun _ => none)
        ⟨[⟨none, none, none⟩], none⟩ (some "page1") = .error e) ∧
    (∃ recs, get_files_from_a_page (fun _ => none)
        ⟨[⟨some ⟨some ⟨some "http://a/f.png", some "T"⟩,
            some ⟨some ⟨some "/d", some "a.com"⟩⟩⟩,
          some ⟨some "2016-01-01"⟩, some ⟨some ⟨some "/comments/1", none⟩⟩⟩],
          none⟩ (some "page1") = .ok (recs, none) ∧ recs.length = 1) :=
  ⟨(C7_malformed_container_amended (fun _ => none)
      ⟨[⟨none, none, none⟩], none⟩ (some "page1")).1
    ⟨⟨none, none, none⟩, by simp, fun rec hr => by
      rw [show build_record (fun _ => none) (some "page1") ⟨none, none, none⟩ =
        Except.error "AttributeError" from rfl] at hr
      exact Except.noConfusion hr⟩,
   (C7_malformed_container_amended (fun _ => none)
      ⟨[⟨some ⟨some ⟨some "http://a/f.png", some "T"⟩,
          some ⟨some ⟨some "/d", some "a.com"⟩⟩⟩,
        some ⟨some "2016-01-01"⟩, some ⟨some ⟨some "/comments/1", none⟩⟩⟩],
        none⟩ (some "page1")).2
    (fun div hd => by
      rw [List.mem_singleton] at hd
      subst hd
      exact ⟨⟨"http://a/f.png", ⟨some "http://a/f.png", some "f.png"⟩,
        some "a.com", some "T", some "2016-01-01", "/comments/1",
        some "page1", 0⟩, by decide⟩)
    none rfl⟩

/-- Claim C7 counterexample: the claim says only the malformed container is
dropped and the remaining well-formed ones are still returned; in the code
the `AttributeError` raised for the container missing its comments-link
element propagates out of the comprehension, so extraction of the whole page
fails and the well-formed first container's record is lost. -/
theorem C7_counterexample :
    get_files_from_a_page (fun _ => none)
      ⟨[⟨some ⟨some ⟨some "http://a/f.png", some "T"⟩,
            some ⟨some ⟨some "/d", some "a.com"⟩⟩⟩,
          some ⟨some "2016-01-01"⟩, some ⟨some ⟨some "/comments/1", none⟩⟩⟩,
        ⟨some ⟨some ⟨some "http://b/g.png", some "U"⟩,
            some ⟨some ⟨some "/d", some "b.com"⟩⟩⟩,
          some ⟨some "2016-01-02"⟩, none⟩],
        none⟩ (some "page1") = .error "AttributeError" := by
  rfl

/-- The per-row function of `upsert` preserves the row key. -/
theorem upsert_fun_key (r : PostRecord) (x : StoreRow) :
    key_fn r (upsert_fn r x) = key_fn r x := by
  cases hb : (x.sourceUrl == r.url) with
  | false => simp [key_fn, upsert_fn, hb]
  | true => simp [key_fn, upsert_fn, hb, updateRow]

/-- The per-row function of `upsert` preserves `sourceUrl`. -/
theorem upsert_fn_sourceUrl (r : PostRecord) (x : StoreRow) :
    (upsert_fn r x).sourceUrl = x.sourceUrl := by
  cases hb : (x.sourceUrl == r.url) with
  | false => simp [upsert_fn, hb]
  | true => simp [upsert_fn, hb, updateRow]

/-- Mapping a key-preserving function commutes with filtering by the key. -/
theorem filter_map_pres (g : StoreRow → StoreRow) (p : StoreRow → Bool)
    (hg : ∀ x, p (g x) = p x) (l : List StoreRow) :
    (l.map g).filter p = (l.filter p).map g := by
  induction l with
  | nil => rfl
  | cons a as ih =>
    cases hb : p a with
    | false => simp [List.filter_cons, hg, hb, ih]
    | true => simp [List.filter_cons, hg, hb, ih]

/-- Mapping a key-preserving function does not change `any` over the key. -/
theorem any_map_pres (g : StoreRow → StoreRow) (p : StoreRow → Bool)
    (hg : ∀ x, p (g x) = p x) (l : List StoreRow) :
    (l.map g).any p = l.any p := by
  induction l with
  | nil => rfl
  | cons a as ih => simp [List.any_cons, hg, ih]

/-- When at most one row satisfies the key, any two satisfying rows agree. -/
theorem filter_le_one_unique (p : StoreRow → Bool) (l : List StoreRow)
    (h : (l.filter p).length ≤ 1) :
    ∀ x ∈ l, p x = true → ∀ y ∈ l, p y = true → x = y := by
  intro x hx hpx y hy hpy
  have hxf : x ∈ l.filter p := List.mem_filter.mpr ⟨hx, hpx⟩
  have hyf : y ∈ l.filter p := List.mem_filter.mpr ⟨hy, hpy⟩
  cases hfl : l.filter p with
  | nil => rw [hfl] at hxf; cases hxf
  | cons a rest =>
    cases rest with
    | nil =>
      rw [hfl] at hxf hyf
      rw [List.mem_singleton] at hxf hyf
      rw [hxf, hyf]
    | cons b t =>
      rw [hfl] at h
      simp at h

/-- Claim C1 (confirmed, modelled from the spec): starting from a store with
at most one row for `r.url`, upserting the same record twice leaves exactly
one row for that `sourceUrl`, and the second upsert does not clear a
previously set `downloaded` flag or `downloadDate`. -/
theorem C1_upsert_idempotent (store : List StoreRow) (r : PostRecord)
    (h : (store.filter (fun row => row.sourceUrl == r.url)).length ≤ 1) :
    ((upsert (upsert store r) r).filter
        (fun row => row.sourceUrl == r.url)).length = 1 ∧
    (∀ row ∈ store, row.sourceUrl = r.url → row.downloaded = true →
      ∀ row2 ∈ upsert (upsert store r) r, row2.sourceUrl = r.url →
        row2.downloaded = true ∧ row2.downloadDate = row.downloadDate) := by
  have h2 : (store.filter (key_fn r)).length ≤ 1 := h
  cases hany : store.any (key_fn r) with
  | true =>
    have hup1 : upsert store r = store.map (upsert_fn r) := by
      simp [upsert, hany]
    have hany1 : (store.map (upsert_fn r)).any (key_fn r) = true := by
      rw [any_map_pres (upsert_fn r) (key_fn r) (upsert_fun_key r)]
      exact hany
    have hup2 : upsert (store.map (upsert_fn r)) r =
        (store.map (upsert_fn r)).map (upsert_fn r) := by
      simp [upsert, hany1]
    constructor
    · show ((upsert (upsert store r) r).filter (key_fn r)).length = 1
      rw [hup1, hup2,
        filter_map_pres (upsert_fn r) (key_fn r) (upsert_fun_key r),
        filter_map_pres (upsert_fn r) (key_fn r) (upsert_fun_key r),
        List.length_map, List.length_map]
      rcases List.any_eq_true.mp hany with ⟨x, hx, hpx⟩
      have hxf : x ∈ store.filter (key_fn r) := List.mem_filter.mpr ⟨hx, hpx⟩
      have hpos : 0 < (store.filter (key_fn r)).length :=
        List.length_pos_of_mem hxf
      omega
    · intro row hrow hkey hdl row2 hrow2 hkey2
      rw [hup1, hup2] at hrow2
      rcases List.mem_map.mp hrow2 with ⟨y, hy, hrow2eq⟩
      rcases List.mem_map.mp hy with ⟨x, hx, hyeq⟩
      have hrow2x : row2 = upsert_fn r (upsert_fn r x) := by
        rw [← hrow2eq, ← hyeq]
      have hxkey : x.sourceUrl = r.url := by
        have e1 : row2.sourceUrl = x.sourceUrl := by
          rw [hrow2x, upsert_fn_sourceUrl, upsert_fn_sourceUrl]
        rw [← e1]
        exact hkey2
      have hpx : key_fn r x = true := by
        show (x.sourceUrl == r.url) = true
        rw [hxkey]
        exact beq_self_eq_true r.url
      have hprow : key_fn r row = true := by
        show (row.sourceUrl == r.url) = true
        rw [hkey]
        exact beq_self_eq_true r.url
      have hxrow : x = row :=
        filter_le_one_unique (key_fn r) store h2 x hx hpx row hrow hprow
      have hpx2 : (x.sourceUrl == r.url) = true := hpx
      have hgx : upsert_fn r x = updateRow x r := by
        simp [upsert_fn, hpx2]
      have hkey3 : ((updateRow x r).sourceUrl == r.url) = true := hpx2
      have hgu : upsert_fn r (updateRow x r) = updateRow (updateRow x r) r := by
        simp [upsert_fn, hkey3]
      have hrow2final : row2 = updateRow (updateRow x r) r := by
        rw [hrow2x, hgx, hgu]
      subst hxrow
      constructor
      · rw [hrow2final]
        exact hdl
      · rw [hrow2final]
        rfl
  | false =>
    have hall : ∀ x ∈ store, key_fn r x = false := by
      intro x hx
      cases hpx : key_fn r x with
      | false => rfl
      | true =>
        have hc : store.any (key_fn r) = true := List.any_eq_true.mpr ⟨x, hx, hpx⟩
        rw [hany] at hc
        exact Bool.noConfusion hc
    have hfilter : store.filter (key_fn r) = [] :=
      List.filter_eq_nil_iff.mpr (fun a ha => by simp [hall a ha])
    have hup1 : upsert store r = store ++ [newRow r] := by
      simp [upsert, hany]
    have hpnew : key_fn r (newRow r) = true := by
      simp [key_fn, newRow]
    have hany1 : (store ++ [newRow r]).any (key_fn r) = true := by
      rw [List.any_append]
      simp [hpnew]
    have hup2 : upsert (store ++ [newRow r]) r =
        (store ++ [newRow r]).map (upsert_fn r) := by
      simp [upsert, hany1]
    constructor
    · show ((upsert (upsert store r) r).filter (key_fn r)).length = 1
      rw [hup1, hup2,
        filter_map_pres (upsert_fn r) (key_fn r) (upsert_fun_key r),
        List.length_map, List.filter_append, hfilter]
      simp [hpnew]
    · intro row hrow hkey hdl
      have hprow : key_fn r row = true := by
        show (row.sourceUrl == r.url) = true
        rw [hkey]
        exact beq_self_eq_true r.url
      rw [hall row hrow] at hprow
      exact Bool.noConfusion hprow

/-- Claim C1 witness: upserting a fresh record twice into an empty store. -/
theorem C1_witness :
    ((upsert (upsert []
          ⟨"u", ⟨none, none⟩, none, none, none, "c", none, 0⟩)
          ⟨"u", ⟨none, none⟩, none, none, none, "c", none, 0⟩).filter
        (fun row => row.sourceUrl ==
          (⟨"u", ⟨none, none⟩, none, none, none, "c", none, 0⟩ : PostRecord).url)).length = 1 ∧
    (∀ row ∈ ([] : List StoreRow),
      row.sourceUrl = (⟨"u", ⟨none, none⟩, none, none, none, "c", none, 0⟩ : PostRecord).url →
      row.downloaded = true →
      ∀ row2 ∈ upsert (upsert []
          ⟨"u", ⟨none, none⟩, none, none, none, "c", none, 0⟩)
          ⟨"u", ⟨none, none⟩, none, none, none, "c", none, 0⟩,
        row2.sourceUrl =
          (⟨"u", ⟨none, none⟩, none, none, none, "c", none, 0⟩ : PostRecord).url →
        row2.downloaded = true ∧ row2.downloadDate = row.downloadDate) :=
  C1_upsert_idempotent [] ⟨"u", ⟨none, none⟩, none, none, none, "c", none, 0⟩
    (by decide)

/-! ### Crawl-loop lemmas for the page-count claims -/

/-- With a positive page bound, any result of the loop has fetched at most
`count + (pages + 1 - page)` pages in total. -/
theorem get_all_posts_loop_count_le
    (fetch : String → List PostRecord × Option String) :
    ∀ fuel (url : Option String) page pages (crawl : Bool) images count l c,
      pages ≠ 0 →
      get_all_posts_loop fetch fuel url page pages crawl images count =
        some (l, c) →
      c ≤ count + (pages + 1 - page) := by
  intro fuel
  induction fuel with
  | zero =>
    intro url page pages crawl images count l c hp h
    exact Option.noConfusion h
  | succ m ih =>
    intro url page pages crawl images count l c hp h
    simp only [get_all_posts_loop] at h
    by_cases hc : page ≤ pages ∧ crawl = true
    · rw [if_pos hc] at h
      cases url with
      | none => exact Option.noConfusion h
      | some u =>
        rw [if_pos hp] at h
        have hrec := ih (fetch u).2 (page + 1) pages
          (if falsyUrl (fetch u).2 = true then false else crawl)
          (images ++ (fetch u).1) (count + 1) l c hp h
        have hpage : page ≤ pages := hc.1
        omega
    · rw [if_neg hc] at h
      rw [Option.some.injEq, Prod.mk.injEq] at h
      have hcount : count = c := h.2
      omega

/-- With a positive page bound and enough fuel, the loop finishes. -/
theorem get_all_posts_loop_total
    (fetch : String → List PostRecord × Option String) :
    ∀ fuel (url : Option String) page pages (crawl : Bool) images count,
      pages ≠ 0 → page ≤ pages + 1 →
      (crawl = true → url.isSome = true) →
      pages + 2 - page ≤ fuel →
      (get_all_posts_loop fetch fuel url page pages crawl images count).isSome =
        true := by
  intro fuel
  induction fuel with
  | zero =>
    intro url page pages crawl images count hp hpage hurl hfuel
    omega
  | succ m ih =>
    intro url page pages crawl images count hp hpage hurl hfuel
    simp only [get_all_posts_loop]
    by_cases hc : page ≤ pages ∧ crawl = true
    · rw [if_pos hc]
      cases url with
      | none =>
        have hsome := hurl hc.2
        exact Bool.noConfusion hsome
      | some u =>
        rw [if_pos hp]
        refine ih (fetch u).2 (page + 1) pages
          (if falsyUrl (fetch u).2 = true then false else crawl)
          (images ++ (fetch u).1) (count + 1) hp (by omega) ?_ (by omega)
        intro hcrawl
        by_cases hf : falsyUrl (fetch u).2 = true
        · rw [if_pos hf] at hcrawl
          exact Bool.noConfusion hcrawl
        · cases hnext : (fetch u).2 with
          | none => exact absurd (by simp [falsyUrl, hnext]) hf
          | some v => rfl
    · rw [if_neg hc]
      rfl

/-- Claim C3 (confirmed): with `maxPages = N > 0` the crawl fetches and
extracts at most N listing pages (the returned count is the number of pages
fetched), and it terminates within N + 1 loop iterations even when every
page supplies a next-page link. -/
theorem C3_page_count_bound (fetch : String → List PostRecord × Option String)
    (url : String) (N fuel : Nat) (hN : 0 < N) :
    (∀ l c, get_all_posts fetch fuel url N = some (l, c) → c ≤ N) ∧
    (N + 1 ≤ fuel → (get_all_posts fetch fuel url N).isSome = true) := by
  have hN0 : N ≠ 0 := by omega
  constructor
  · intro l c h
    simp only [get_all_posts] at h
    rw [if_pos hN0] at h
    have hle := get_all_posts_loop_count_le fetch fuel (some url) 1 N true [] 0
      l c hN0 h
    omega
  · intro hf
    simp only [get_all_posts]
    rw [if_pos hN0]
    exact get_all_posts_loop_total fetch fuel (some url) 1 N true [] 0 hN0
      (by omega) (fun _ => rfl) (by omega)

/-- Claim C3 witness: a site whose every page links to a next page, crawled
with `maxPages = 2` and fuel 3. -/
theorem C3_witness :
    (∀ l c, get_all_posts (fun u => ([], some u)) 3 "s" 2 = some (l, c) →
        c ≤ 2) ∧
    (2 + 1 ≤ 3 → (get_all_posts (fun u => ([], some u)) 3 "s" 2).isSome = true) :=
  C3_page_count_bound (fun u => ([], some u)) "s" 2 3 (by decide)

/-- One unfolding of the loop when the while condition holds and the url is
present. -/
theorem get_all_posts_loop_succ_some
    (fetch : String → List PostRecord × Option String) (m : Nat) (u : String)
    (page pages : Nat) (crawl : Bool) (images : List PostRecord) (count : Nat)
    (hc : page ≤ pages ∧ crawl = true) :
    get_all_posts_loop fetch (m + 1) (some u) page pages crawl images count =
      get_all_posts_loop fetch m (fetch u).2
        (if pages ≠ 0 then page + 1 else page) pages
        (if falsyUrl (fetch u).2 then false else crawl)
        (images ++ (fetch u).1) (count + 1) := by
  have h0 : get_all_posts_loop fetch (m + 1) (some u) page pages crawl
        images count =
      if page ≤ pages ∧ crawl = true then
        get_all_posts_loop fetch m (fetch u).2
          (if pages ≠ 0 then page + 1 else page) pages
          (if falsyUrl (fetch u).2 then false else crawl)
          (images ++ (fetch u).1) (count + 1)
      else some (images, count) := rfl
  rw [h0, if_pos hc]

/-- One unfolding of the loop when the while condition fails. -/
theorem get_all_posts_loop_succ_exit
    (fetch : String → List PostRecord × Option String) (m : Nat)
    (url : Option String) (page pages : Nat) (crawl : Bool)
    (images : List PostRecord) (count : Nat)
    (hc : ¬ (page ≤ pages ∧ crawl = true)) :
    get_all_posts_loop fetch (m + 1) url page pages crawl images count =
      some (images, count) := by
  have h0 : get_all_posts_loop fetch (m + 1) url page pages crawl
        images count =
      if page ≤ pages ∧ crawl = true then
        match url with
        | none => none
        | some u =>
          get_all_posts_loop fetch m (fetch u).2
            (if pages ≠ 0 then page + 1 else page) pages
            (if falsyUrl (fetch u).2 then false else crawl)
            (images ++ (fetch u).1) (count + 1)
      else some (images, count) := rfl
  rw [h0, if_neg hc]

/-- The loop with `pages = 0` follows the chain of truthy next links and
stops right after the first falsy one, having fetched one page per chain
element. -/
theorem get_all_posts_loop_chain
    (fetch : String → List PostRecord × Option String) :
    ∀ k fuel (u : String) images count,
      chainTo fetch u k → k + 2 ≤ fuel →
      ∃ l, get_all_posts_loop fetch fuel (some u) 0 0 true images count =
        some (l, count + (k + 1)) := by
  intro k
  induction k with
  | zero =>
    intro fuel u images count hch hf
    obtain ⟨m, rfl⟩ : ∃ m, fuel = m + 2 := ⟨fuel - 2, by omega⟩
    have hfalsy : falsyUrl (fetch u).2 = true := hch
    refine ⟨images ++ (fetch u).1, ?_⟩
    rw [get_all_posts_loop_succ_some fetch (m + 1) u 0 0 true images count
      ⟨le_refl 0, rfl⟩]
    rw [if_neg (by omega : ¬ ((0 : Nat) ≠ 0)), if_pos hfalsy]
    rw [get_all_posts_loop_succ_exit fetch m (fetch u).2 0 0 false
      (images ++ (fetch u).1) (count + 1) (by simp)]
  | succ k ih =>
    intro fuel u images count hch hf
    rcases hch with ⟨hfalse, u2, hu2, hch2⟩
    obtain ⟨m, rfl⟩ : ∃ m, fuel = m + 1 := ⟨fuel - 1, by omega⟩
    rcases ih m u2 (images ++ (fetch u).1) (count + 1) hch2 (by omega)
      with ⟨l, hl⟩
    refine ⟨l, ?_⟩
    rw [get_all_posts_loop_succ_some fetch m u 0 0 true images count
      ⟨le_refl 0, rfl⟩]
    rw [if_neg (by omega : ¬ ((0 : Nat) ≠ 0)),
      if_neg (by simp [hfalse] : ¬ (falsyUrl (fetch u).2 = true)), hu2]
    have harith : count + 1 + (k + 1) = count + (k + 1 + 1) := by omega
    rw [harith] at hl
    exact hl

/-- Claim C4 (amended): with `maxPages = 0` the crawl continues exactly
while the extracted next-page value is truthy (a nonempty link) and stops at
the first falsy one — an absent marker or an empty link — having fetched
`k + 1` pages when the first falsy next value appears after `k` truthy
links. -/
theorem C4_unbounded_crawl_amended
    (fetch : String → List PostRecord × Option String) (url : String)
    (k fuel : Nat) (hchain : chainTo fetch url k) (hfuel : k + 2 ≤ fuel) :
    ∃ l, get_all_posts fetch fuel url 0 = some (l, k + 1) := by
  rcases get_all_posts_loop_chain fetch k fuel url [] 0 hchain hfuel
    with ⟨l, hl⟩
  refine ⟨l, ?_⟩
  simp only [get_all_posts]
  rw [if_neg (by omega : ¬ ((0 : Nat) ≠ 0))]
  simpa using hl

/-- Claim C4 witness: a two-page chain — page "a" links to page "b", page
"b" has no next marker — crawled unbounded fetches exactly 2 pages. -/
theorem C4_witness :
    ∃ l, get_all_posts
        (fun u => ([], if u = "a" then some "b" else none)) 4 "a" 0 =
      some (l, 2) :=
  C4_unbounded_crawl_amended
    (fun u => ([], if u = "a" then some "b" else none)) "a" 1 4
    (by
      refine ⟨by decide, "b", by decide, ?_⟩
      show falsyUrl (([] : List PostRecord),
        if "b" = "a" then some "b" else none).2 = true
      decide)
    (by omega)

/-- Claim C4 counterexample: the claim says the unbounded crawl continues
whenever a next-page link is present; but a page whose next-button link is
the empty string is falsy in Python (`if not next_page`), so the crawl stops
after one page even though the marker and its link are present. -/
theorem C4_counterexample :
    get_all_posts (fun _ => ([], some "")) 5 "start" 0 = some ([], 1) := by
  rfl

/-- Claim C10 witness: a url containing "imgur" only in its path is
classified as imgur, the first matching element of the domain list. -/
theorem C10_witness : known_domain "x.com/imgur" = some "imgur" :=
  ((C10_known_domain_first_substring "x.com/imgur").1 "imgur").mpr
    ⟨["reddit"], ["gfycat", "tumblr", "blogspot"], rfl,
     ⟨"x.com/".toList, [], by decide⟩,
     fun e he hex => by
      rcases List.mem_singleton.mp he with rfl
      have hc := (strContains_iff "reddit" "x.com/imgur").mpr hex
      revert hc
      decide⟩
